import Mathlib

/-!
Verification of the thread-resolution, projection, import and annotation-creation
behaviour of the `ferramenta-de-anotacao-tfc` repository.

The resolution core of the repository is the thread-assembly code in
`annotation-admin-ui-copy/src/pages/ChatView.tsx` (lines 261-319): three sequential
passes over the loaded page of messages (`allMessages`), followed by an
`unthreadedMessages` filter and a per-group sort by timestamp.  That code is embedded
here directly:

- JavaScript `Map` objects (`messageThreads`, `threadAnnotationMap`, `messageMap`)
  become association lists with `Map.set` semantics (`alistSet` updates an existing
  key in place and appends a fresh key, preserving insertion order, which is the
  iteration order of a JS `Map`);
- `Object.entries(threadAnnotations)` becomes a `List (String × List Ann)` in the
  object's key order;
- `message.turn_id || message.id.toString()` becomes `msgKey` (the empty string is
  falsy in JavaScript, hence the explicit test);
- `new Date(a.timestamp || a.created_at).getTime()` becomes the single numeric
  `time` field, and the ECMAScript-stable `Array.prototype.sort` becomes a stable
  insertion sort (`sortByTime`).
-/

namespace ChatView

/-- Provenance of a stored thread annotation record (`source` column of the
`thread_annotations` table: `manual` or `import`). -/
inductive Source where
  | manual : Source
  | imported : Source
deriving DecidableEq, Repr

/-- One stored thread annotation record, as returned inside the per-thread groups of
`getThreadAnnotations` (authService.ts).  The thread id itself is the key of the
group the record sits in, not a field of the record.  `created_at`, `source` and
`confidence` are carried by the backend rows; `findAnnotationForMessage` in
ChatView.tsx reads only `turn_id`. -/
structure Ann where
  turn_id : String
  created_at : Nat
  source : Source
  confidence : ℚ
deriving DecidableEq, Repr

/-- One chat message as consumed by the assembly code: `id` (database id),
optional `turn_id`, optional `reply_to_turn`, and the numeric sort key obtained
from `new Date(timestamp || created_at).getTime()`. -/
structure Message where
  id : Nat
  turn_id : Option String
  reply_to_turn : Option String
  time : Nat
deriving DecidableEq, Repr

/-- `message.turn_id || message.id.toString()` — the key used for `messageMap` and
`threadAnnotationMap`.  `||` falls through on the empty string (falsy). -/
def msgKey (m : Message) : String :=
  match m.turn_id with
  | some s => if s = "" then toString m.id else s
  | none => toString m.id

/-- The matching test of `findAnnotationForMessage`:
`a.turn_id === message.turn_id || a.turn_id === message.id.toString()`
(strict equality: an absent `turn_id` matches nothing on the first disjunct). -/
def annMatches (m : Message) (a : Ann) : Bool :=
  (match m.turn_id with
   | some s => decide (a.turn_id = s)
   | none => false) || decide (a.turn_id = toString m.id)

/-- `findAnnotationForMessage` (ChatView.tsx lines 199-211): scan the thread groups
of `threadAnnotations` in listed order; in the first group holding a matching record
return `(threadId, record)`; otherwise `none`. -/
def findAnnotationForMessage (ta : List (String × List Ann)) (m : Message) :
    Option (String × Ann) :=
  match ta with
  | [] => none
  | (threadId, anns) :: rest =>
    match anns.find? (fun a => annMatches m a) with
    | some a => some (threadId, a)
    | none => findAnnotationForMessage rest m

/-- `Map.prototype.get`: first binding of the key, if any. -/
def alistGet {β : Type} : List (String × β) → String → Option β
  | [], _ => none
  | (k2, v) :: rest, k => if k2 = k then some v else alistGet rest k

/-- `Map.prototype.set`: replace the value of an existing key in place, or append a
binding for a fresh key. -/
def alistSet {β : Type} : List (String × β) → String → β → List (String × β)
  | [], k, v => [(k, v)]
  | (k2, v2) :: rest, k, v =>
    if k2 = k then (k, v) :: rest else (k2, v2) :: alistSet rest k v

/-- The group-insertion idiom of the assembly:
`if (!messageThreads.has(tid)) messageThreads.set(tid, []); messageThreads.get(tid).push(m)`. -/
def pushThread : List (String × List Message) → String → Message →
    List (String × List Message)
  | [], tid, m => [(tid, [m])]
  | (k, ms) :: rest, tid, m =>
    if k = tid then (k, ms ++ [m]) :: rest else (k, ms) :: pushThread rest tid m

/-- First pass (lines 269-272): `messageMap.set(messageId, message)` for every loaded
message, in list order (later duplicates of a key overwrite earlier ones). -/
def messageMapOf (msgs : List Message) : List (String × Message) :=
  msgs.foldl (fun acc m => alistSet acc (msgKey m) m) []

/-- The mutable state of the assembly: the `messageThreads` groups and the
`threadAnnotationMap` from message key to thread id. -/
structure AssemblyState where
  threads : List (String × List Message)
  threadMap : List (String × String)
deriving DecidableEq, Repr

/-- Second pass (lines 275-285): a message with a found annotation is pushed onto
that annotation's thread group and its key is mapped to the thread id. -/
def pass2step (ta : List (String × List Ann)) (st : AssemblyState) (m : Message) :
    AssemblyState :=
  match findAnnotationForMessage ta m with
  | some (threadId, _) =>
    { threads := pushThread st.threads threadId m,
      threadMap := alistSet st.threadMap (msgKey m) threadId }
  | none => st

/-- Third pass (lines 288-305): a still-unmapped message whose `reply_to_turn` is
truthy, found in `messageMap`, and whose parent's key is already mapped, joins the
parent's thread group. -/
def pass3step (mm : List (String × Message)) (st : AssemblyState) (m : Message) :
    AssemblyState :=
  match alistGet st.threadMap (msgKey m) with
  | some _ => st
  | none =>
    match m.reply_to_turn with
    | none => st
    | some p =>
      if p = "" then st
      else
        match alistGet mm p with
        | none => st
        | some parent =>
          match alistGet st.threadMap (msgKey parent) with
          | some parentThreadId =>
            { threads := pushThread st.threads parentThreadId m,
              threadMap := alistSet st.threadMap (msgKey m) parentThreadId }
          | none => st

/-- The complete assembly: pass 2 over the loaded messages from the empty state,
then pass 3 over the same list with the `messageMap` of the full list. -/
def assemble (ta : List (String × List Ann)) (msgs : List Message) : AssemblyState :=
  msgs.foldl (pass3step (messageMapOf msgs)) (msgs.foldl (pass2step ta) ⟨[], []⟩)

/-- The thread id the assembly resolves a message to, read off the final
`threadAnnotationMap` (`none` when the message ends up unthreaded). -/
def resolvedThread (ta : List (String × List Ann)) (msgs : List Message)
    (m : Message) : Option String :=
  alistGet (assemble ta msgs).threadMap (msgKey m)

/-- Lines 308-310: the messages whose key is absent from the final map. -/
def unthreadedMessages (ta : List (String × List Ann)) (msgs : List Message) :
    List Message :=
  msgs.filter (fun m => (alistGet (assemble ta msgs).threadMap (msgKey m)).isNone)

/-- Stable insertion of a later-arriving message behind every element of equal or
smaller time, mirroring the ECMAScript-stable `sort((a, b) => aTime - bTime)`. -/
def insertByTime (m : Message) : List Message → List Message
  | [] => [m]
  | x :: xs => if m.time < x.time then m :: x :: xs else x :: insertByTime m xs

/-- Stable sort of one thread group by ascending time. -/
def sortByTime (l : List Message) : List Message :=
  l.foldl (fun acc m => insertByTime m acc) []

/-- Lines 313-319: every thread group sorted by timestamp; this is the projection
the component renders. -/
def sortedThreads (ta : List (String × List Ann)) (msgs : List Message) :
    List (String × List Message) :=
  (assemble ta msgs).threads.map (fun p => (p.1, sortByTime p.2))

/-- Derived classification of how the assembly resolved a message: `explicit` when
its own annotation was found (pass 2 assigns it and renders its confidence badge),
`inherited` when it was threaded without an annotation of its own (pass 3, via
`reply_to_turn`), `unresolved` otherwise. -/
inductive Origin where
  | explicit : Origin
  | inherited : Origin
  | unresolved : Origin
deriving DecidableEq, Repr

/-- The origin of a message's resolution under the assembly. -/
def originOf (ta : List (String × List Ann)) (msgs : List Message) (m : Message) :
    Origin :=
  match findAnnotationForMessage ta m with
  | some _ => Origin.explicit
  | none =>
    if (resolvedThread ta msgs m).isSome then Origin.inherited else Origin.unresolved

/-- The diagnostic kinds named by the design (cycle, dangling parent, resolved
duplicate-annotation conflict). -/
inductive Diagnostic where
  | CycleDetected (turnIds : List String)
  | DanglingParent (turnIds : List String)
  | ConflictResolved (turnIds : List String)
deriving DecidableEq, Repr

/-- The diagnostics the assembly emits.  ChatView.tsx constructs no diagnostic of
any kind anywhere in the assembly (lines 261-319): cycles, dangling parents and
duplicate annotations are silently absorbed, so the emitted list is empty for every
input. -/
def emittedDiagnostics (_ta : List (String × List Ann)) (_msgs : List Message) :
    List Diagnostic :=
  []

/-- Occurrences of a message in a list (the assembly never deduplicates pushes, so
multiplicity matters for the partition property). -/
def occs (x : Message) : List Message → Nat
  | [] => 0
  | y :: ys => (if y = x then 1 else 0) + occs x ys

/-- Number of occurrences of a message across all thread groups. -/
def countIn (threads : List (String × List Message)) (m : Message) : Nat :=
  (threads.map (fun p => occs m p.2)).sum

/-- Pass 2 alone, the state reached before the reply-to pass starts. -/
def pass2 (ta : List (String × List Ann)) (msgs : List Message) : AssemblyState :=
  msgs.foldl (pass2step ta) ⟨[], []⟩

/-- A metadata rewrite of one stored record: the `turn_id` is kept, while
`created_at`, `source` and `confidence` are replaced arbitrarily. -/
def reMeta (g : Ann → Nat) (s : Ann → Source) (c : Ann → ℚ) (a : Ann) : Ann :=
  { turn_id := a.turn_id, created_at := g a, source := s a, confidence := c a }

/-- Apply a record rewrite everywhere inside the grouped thread-annotation data. -/
def mapAnns (f : Ann → Ann) (ta : List (String × List Ann)) :
    List (String × List Ann) :=
  ta.map (fun p => (p.1, p.2.map f))

end ChatView

namespace ImportMapper

/-- Modelled from the spec: one raw import row, an ordered mapping of column name to
string value (§4.1).  The Import Mapper itself (`ImportRows`, §4.1/§6) is backend
code of this repository that is not present under `src/` (only
`annotation-backend-thr/README_CHANGES.md` and its frontend callers are), so the
mapper is modelled here from the spec's words. -/
structure Row where
  cells : List (String × String)
deriving DecidableEq, Repr

/-- Modelled from the spec: a canonical turn produced by the mapper.  `order` is the
ingestion index (import-file order, the implicit timestamp). -/
structure Turn where
  turn_id : String
  content : String
  thread : Option String
  order : Nat
deriving DecidableEq, Repr

/-- Modelled from the spec: a seeded thread-annotation record
(`source = import`, `confidence = 1.0`). -/
structure SeededAnn where
  turn_id : String
  thread_id : String
  source : ChatView.Source
  confidence : ℚ
deriving DecidableEq, Repr

/-- Modelled from the spec: the fatal, caller-fixable error class of §7; raised only
for configuration-level problems, aborting before any partial work. -/
inductive ConfigurationError where
  | missingRequired (field : String)
deriving DecidableEq, Repr

/-- Modelled from the spec: the non-error result of `ImportRows` — turns, seeded
annotations, and per-row error/warning indices (§6). -/
structure ImportOutcome where
  turns : List Turn
  anns : List SeededAnn
  rowErrors : List Nat
  rowWarnings : List Nat
deriving DecidableEq, Repr

/-- Whether a row carries a usable value in the mapped content column. -/
def rowHasContent (contentCol : String) (r : Row) : Bool :=
  match ChatView.alistGet r.cells contentCol with
  | some v => decide (v ≠ "")
  | none => false

/-- Modelled from the spec: the per-row walk of the mapper, at a given starting
ingestion index.  A row without a value in the content column is skipped and its
index recorded as a row-level error; every other row yields a `Turn` (turn id from
the mapped column when present, else the index), and a non-empty value in the
mapped thread column seeds an import annotation with confidence 1. -/
def ImportRowsAux (contentCol : String) (threadCol turnIdCol : Option String) :
    Nat → List Row → ImportOutcome
  | _, [] => ⟨[], [], [], []⟩
  | i, r :: rest =>
    let tail := ImportRowsAux contentCol threadCol turnIdCol (i + 1) rest
    match ChatView.alistGet r.cells contentCol with
    | none => { tail with rowErrors := i :: tail.rowErrors }
    | some v =>
      if v = "" then { tail with rowErrors := i :: tail.rowErrors }
      else
        let tid : String :=
          (turnIdCol.bind (fun c => ChatView.alistGet r.cells c)).getD (toString i)
        let seeded : List SeededAnn :=
          match threadCol.bind (fun c => ChatView.alistGet r.cells c) with
          | some th =>
            if th = "" then []
            else [⟨tid, th, ChatView.Source.imported, 1⟩]
          | none => []
        { tail with
          turns := ⟨tid, v, threadCol.bind (fun c => ChatView.alistGet r.cells c),
            i⟩ :: tail.turns,
          anns := seeded ++ tail.anns }

/-- Modelled from the spec: `ImportRows(rows, mapping)` (§6).  A mapping without the
required `content` target fails the whole import with a `ConfigurationError` and no
partial output; otherwise every row is either imported or skipped with a row-level
error as in `ImportRowsAux`. -/
def ImportRows (rows : List Row) (mapping : List (String × String)) :
    Except ConfigurationError ImportOutcome :=
  match ChatView.alistGet mapping "content" with
  | none => Except.error (ConfigurationError.missingRequired "content")
  | some contentCol =>
    Except.ok (ImportRowsAux contentCol (ChatView.alistGet mapping "thread")
      (ChatView.alistGet mapping "turn_id") 0 rows)

end ImportMapper

namespace ConfidenceFlows

/-- The annotation-creation flow of `annotation-admin-ui-copy/src/pages/ChatView.tsx`:
`handleCreateAnnotation` passes the raw form percentage (`values.confidence`) to the
mutation, whose `mutationFn` sends `data.confidence / 100`. -/
def adminCopySentConfidence (formConfidence : ℚ) : ℚ :=
  formConfidence / 100

/-- The annotation-creation flow of the unnamed ChatView variant (`src/unnamed/part_016`):
`handleCreateAnnotation` passes `values.confidence / 100` to the mutation, whose
`mutationFn` sends `data.confidence / 100` again. -/
def variantSentConfidence (formConfidence : ℚ) : ℚ :=
  formConfidence / 100 / 100

end ConfidenceFlows

namespace Ex

open ChatView

/-! Concrete data used by the scenario theorems, witnesses and counterexamples. -/

/-- Root turn `t1` of the §8 working set. -/
def exT1 : Message := { id := 1, turn_id := some "t1", reply_to_turn := none, time := 10 }

/-- Turn `t2`, replying to `t1`. -/
def exT2 : Message := { id := 2, turn_id := some "t2", reply_to_turn := some "t1", time := 20 }

/-- Turn `t3`, replying to `t2`. -/
def exT3 : Message := { id := 3, turn_id := some "t3", reply_to_turn := some "t2", time := 30 }

/-- The single stored record binding `t1` to thread `A`. -/
def exAnnT1 : Ann :=
  { turn_id := "t1", created_at := 1, source := Source.manual, confidence := 1 }

/-- Grouped annotation data: thread `A` holding the `t1` record. -/
def exTaA : List (String × List Ann) := [("A", [exAnnT1])]

/-- The earlier duplicate record on `t2`: `created_at = 1`, `source = import`,
listed under thread `X`. -/
def c3AnnX : Ann :=
  { turn_id := "t2", created_at := 1, source := Source.imported, confidence := 1 }

/-- The later duplicate record on `t2`: `created_at = 2`, `source = manual`,
listed under thread `Y`. -/
def c3AnnY : Ann :=
  { turn_id := "t2", created_at := 2, source := Source.manual, confidence := 1 }

/-- Duplicate-annotation data for `t2`, with thread `X` listed first. -/
def c3Ta : List (String × List Ann) := [("X", [c3AnnX]), ("Y", [c3AnnY])]

/-- Cycle member `A`, replying to `B`. -/
def cycA : Message := { id := 21, turn_id := some "A", reply_to_turn := some "B", time := 1 }

/-- Cycle member `B`, replying to `A`. -/
def cycB : Message := { id := 22, turn_id := some "B", reply_to_turn := some "A", time := 2 }

/-- Turn `A` of the precedence scenario, root, annotated to `X`. -/
def c5A : Message := { id := 31, turn_id := some "A1", reply_to_turn := none, time := 1 }

/-- Turn `B`, replying to `A`. -/
def c5B : Message := { id := 32, turn_id := some "B1", reply_to_turn := some "A1", time := 2 }

/-- Turn `C`, replying to `B`. -/
def c5C : Message := { id := 33, turn_id := some "C1", reply_to_turn := some "B1", time := 3 }

/-- Turn `D`, replying to `C`. -/
def c5D : Message := { id := 34, turn_id := some "D1", reply_to_turn := some "C1", time := 4 }

/-- The record binding `A` to thread `X`. -/
def c5AnnA : Ann :=
  { turn_id := "A1", created_at := 1, source := Source.manual, confidence := 1 }

/-- The record binding `B` to thread `Y`. -/
def c5AnnB : Ann :=
  { turn_id := "B1", created_at := 2, source := Source.manual, confidence := 1 }

/-- Annotation data with only `A → X`. -/
def c5TaX : List (String × List Ann) := [("X", [c5AnnA])]

/-- Annotation data with `A → X` and `B → Y`. -/
def c5TaXY : List (String × List Ann) := [("X", [c5AnnA]), ("Y", [c5AnnB])]

/-- A child turn replying to the not-yet-loaded parent `p1`. -/
def c6Child : Message :=
  { id := 41, turn_id := some "c1", reply_to_turn := some "p1", time := 2 }

/-- The parent `p1`, which carries its own annotation. -/
def c6Parent : Message := { id := 42, turn_id := some "p1", reply_to_turn := none, time := 1 }

/-- Annotation data binding the parent `p1` to thread `X`. -/
def c6Ta : List (String × List Ann) :=
  [("X", [{ turn_id := "p1", created_at := 1, source := Source.manual, confidence := 1 }])]

/-- A turn whose `reply_to_turn` refers to a key absent from every load. -/
def c6Dangling : Message :=
  { id := 43, turn_id := some "d1", reply_to_turn := some "ghost", time := 1 }

/-- Grandparent `g1`, root, annotated to `X`. -/
def c6G : Message := { id := 44, turn_id := some "g1", reply_to_turn := none, time := 0 }

/-- Parent `p2`, replying to `g1`; it arrives only on a later page. -/
def c6P2 : Message := { id := 45, turn_id := some "p2", reply_to_turn := some "g1", time := 1 }

/-- Waiting child `c2`, replying to the late parent `p2`. -/
def c6C2 : Message := { id := 46, turn_id := some "c2", reply_to_turn := some "p2", time := 2 }

/-- Annotation data binding only the grandparent `g1` to thread `X`. -/
def c6Ta2 : List (String × List Ann) :=
  [("X", [{ turn_id := "g1", created_at := 1, source := Source.manual, confidence := 1 }])]

/-- Projection-scenario turn 1: annotated, timestamp 5. -/
def c8T1 : Message := { id := 51, turn_id := some "s1", reply_to_turn := none, time := 5 }

/-- Projection-scenario turn 2: reply to `s1`, same timestamp 5. -/
def c8T2 : Message := { id := 52, turn_id := some "s2", reply_to_turn := some "s1", time := 5 }

/-- Projection-scenario turn 3: annotated, same timestamp 5. -/
def c8T3 : Message := { id := 53, turn_id := some "s3", reply_to_turn := none, time := 5 }

/-- Annotation data putting `s1` and `s3` in thread `A`. -/
def c8Ta : List (String × List Ann) :=
  [("A", [{ turn_id := "s1", created_at := 1, source := Source.manual, confidence := 1 },
          { turn_id := "s3", created_at := 1, source := Source.manual, confidence := 1 }])]

/-- First holder of the duplicated key `t`: replies to `r`. -/
def c9M1 : Message := { id := 61, turn_id := some "t", reply_to_turn := some "r", time := 1 }

/-- Second holder of the duplicated key `t`: dangling reply. -/
def c9M2 : Message := { id := 62, turn_id := some "t", reply_to_turn := some "zzz", time := 2 }

/-- The annotated root `r`. -/
def c9R : Message := { id := 63, turn_id := some "r", reply_to_turn := none, time := 0 }

/-- Annotation data binding `r` to thread `A`. -/
def c9Ta : List (String × List Ann) :=
  [("A", [{ turn_id := "r", created_at := 1, source := Source.manual, confidence := 1 }])]

/-- The duplicate-key working set. -/
def c9Msgs : List Message := [c9M1, c9M2, c9R]

/-- An import row with content and a thread value. -/
def c7Row1 : ImportMapper.Row := { cells := [("msg", "hello"), ("th", "T1")] }

/-- An import row missing the content column entirely. -/
def c7RowBad : ImportMapper.Row := { cells := [("th", "T2")] }

/-- An import row with content only. -/
def c7Row3 : ImportMapper.Row := { cells := [("msg", "world")] }

/-- The three-row import batch: good, bad, good. -/
def c7Rows : List ImportMapper.Row := [c7Row1, c7RowBad, c7Row3]

/-- A column mapping that maps `content` (to `msg`) and `thread` (to `th`). -/
def c7GoodMapping : List (String × String) := [("content", "msg"), ("thread", "th")]

/-- A column mapping lacking the required `content` target. -/
def c7BadMapping : List (String × String) := [("thread", "th")]

end Ex

namespace ChatView

theorem alistGet_alistSet_self {β : Type} (l : List (String × β)) (k : String) (v : β) :
    alistGet (alistSet l k v) k = some v := by
  induction l with
  | nil => simp [alistSet, alistGet]
  | cons p rest ih =>
    obtain ⟨k2, v2⟩ := p
    by_cases h : k2 = k
    · simp [alistSet, h, alistGet]
    · simp [alistSet, h, alistGet, ih]

theorem alistGet_alistSet_ne {β : Type} (l : List (String × β)) (k k' : String) (v : β)
    (h : k' ≠ k) : alistGet (alistSet l k v) k' = alistGet l k' := by
  induction l with
  | nil => simp [alistSet, alistGet, Ne.symm h]
  | cons p rest ih =>
    obtain ⟨k2, v2⟩ := p
    by_cases h2 : k2 = k
    · subst h2
      simp [alistSet, alistGet, Ne.symm h]
    · simp only [alistSet, if_neg h2, alistGet]
      by_cases h3 : k2 = k'
      · simp [h3]
      · simp [h3, ih]

theorem alistGet_map_snd {β γ : Type} (f : β → γ) (l : List (String × β)) (k : String) :
    alistGet (l.map (fun p => (p.1, f p.2))) k = (alistGet l k).map f := by
  induction l with
  | nil => simp [alistGet]
  | cons p rest ih =>
    obtain ⟨k2, v⟩ := p
    by_cases h : k2 = k
    · simp [alistGet, h]
    · simp [alistGet, h, ih]

theorem occs_append (x : Message) (l1 l2 : List Message) :
    occs x (l1 ++ l2) = occs x l1 + occs x l2 := by
  induction l1 with
  | nil => simp [occs]
  | cons y ys ih => simp [occs, ih]; omega

theorem countIn_pushThread (threads : List (String × List Message)) (tid : String)
    (m x : Message) :
    countIn (pushThread threads tid m) x
      = countIn threads x + (if m = x then 1 else 0) := by
  induction threads with
  | nil => simp [pushThread, countIn, occs]
  | cons p rest ih =>
    obtain ⟨k, ms⟩ := p
    by_cases h : k = tid
    · simp [pushThread, h, countIn, occs_append, occs]
      omega
    · simp only [pushThread, if_neg h, countIn, List.map_cons, List.sum_cons] at ih ⊢
      omega

theorem occs_insertByTime (x m : Message) (l : List Message) :
    occs x (insertByTime m l) = (if m = x then 1 else 0) + occs x l := by
  induction l with
  | nil => simp [insertByTime, occs]
  | cons y ys ih =>
    by_cases h : m.time < y.time
    · simp [insertByTime, h, occs]
    · simp [insertByTime, h, occs, ih]
      omega

theorem mem_insertByTime (y m : Message) (l : List Message) :
    y ∈ insertByTime m l ↔ y = m ∨ y ∈ l := by
  induction l with
  | nil => simp [insertByTime]
  | cons z zs ih =>
    by_cases h : m.time < z.time
    · simp only [insertByTime, if_pos h, List.mem_cons]
    · simp only [insertByTime, if_neg h, List.mem_cons, ih]
      tauto

theorem insertByTime_pairwise (m : Message) (l : List Message)
    (h : l.Pairwise (fun a b => a.time ≤ b.time)) :
    (insertByTime m l).Pairwise (fun a b => a.time ≤ b.time) := by
  induction l with
  | nil => simp [insertByTime]
  | cons y ys ih =>
    rcases List.pairwise_cons.mp h with ⟨hy, hys⟩
    by_cases hlt : m.time < y.time
    · simp only [insertByTime, if_pos hlt]
      refine List.pairwise_cons.mpr ⟨?_, h⟩
      intro z hz
      rcases List.mem_cons.mp hz with rfl | hz2
      · exact Nat.le_of_lt hlt
      · exact Nat.le_trans (Nat.le_of_lt hlt) (hy z hz2)
    · simp only [insertByTime, if_neg hlt]
      refine List.pairwise_cons.mpr ⟨?_, ih hys⟩
      intro z hz
      rcases (mem_insertByTime z m ys).mp hz with rfl | hz2
      · exact Nat.le_of_not_lt hlt
      · exact hy z hz2

theorem insertByTime_perm (m : Message) (l : List Message) :
    (insertByTime m l).Perm (m :: l) := by
  induction l with
  | nil => simp [insertByTime]
  | cons y ys ih =>
    by_cases h : m.time < y.time
    · simp [insertByTime, h]
    · simp only [insertByTime, if_neg h]
      exact (List.Perm.cons y ih).trans (List.Perm.swap m y ys)

theorem sortByTime_append_singleton (l : List Message) (m : Message) :
    sortByTime (l ++ [m]) = insertByTime m (sortByTime l) := by
  simp [sortByTime, List.foldl_append]

theorem sortByTime_pairwise (l : List Message) :
    (sortByTime l).Pairwise (fun a b => a.time ≤ b.time) := by
  induction l using List.reverseRecOn with
  | nil => simp [sortByTime]
  | append_singleton l m ih =>
    rw [sortByTime_append_singleton]
    exact insertByTime_pairwise m _ ih

theorem sortByTime_perm (l : List Message) : (sortByTime l).Perm l := by
  induction l using List.reverseRecOn with
  | nil => simp [sortByTime]
  | append_singleton l m ih =>
    rw [sortByTime_append_singleton]
    exact ((insertByTime_perm m _).trans (List.Perm.cons m ih)).trans
      (List.perm_append_singleton m l).symm

theorem annMatches_reMeta (m : Message) (g : Ann → Nat) (s : Ann → Source)
    (c : Ann → ℚ) (a : Ann) : annMatches m (reMeta g s c a) = annMatches m a := by
  cases m.turn_id <;> rfl

theorem find_map_reMeta (m : Message) (g : Ann → Nat) (s : Ann → Source) (c : Ann → ℚ)
    (anns : List Ann) :
    (anns.map (reMeta g s c)).find? (fun a => annMatches m a)
      = (anns.find? (fun a => annMatches m a)).map (reMeta g s c) := by
  induction anns with
  | nil => simp
  | cons a rest ih =>
    cases h : annMatches m a with
    | true =>
      rw [List.map_cons, List.find?_cons_of_pos, List.find?_cons_of_pos]
      · simp
      · exact h
      · rw [annMatches_reMeta]; exact h
    | false =>
      rw [List.map_cons, List.find?_cons_of_neg, List.find?_cons_of_neg, ih]
      · simp [h]
      · rw [annMatches_reMeta]; simp [h]

theorem findAnn_mapAnns_reMeta (g : Ann → Nat) (s : Ann → Source) (c : Ann → ℚ)
    (ta : List (String × List Ann)) (m : Message) :
    findAnnotationForMessage (mapAnns (reMeta g s c) ta) m
      = (findAnnotationForMessage ta m).map (fun q => (q.1, reMeta g s c q.2)) := by
  induction ta with
  | nil => simp [mapAnns, findAnnotationForMessage]
  | cons p rest ih =>
    obtain ⟨tid, anns⟩ := p
    simp only [mapAnns, List.map_cons, findAnnotationForMessage, find_map_reMeta]
    cases anns.find? (fun a => annMatches m a) with
    | some a => simp
    | none => simpa [mapAnns] using ih

theorem pass3step_shape (mm : List (String × Message)) (st : AssemblyState)
    (m : Message) :
    pass3step mm st m = st ∨
    ∃ p parent tid, m.reply_to_turn = some p ∧ p ≠ "" ∧
      alistGet st.threadMap (msgKey m) = none ∧
      alistGet mm p = some parent ∧
      alistGet st.threadMap (msgKey parent) = some tid ∧
      pass3step mm st m =
        { threads := pushThread st.threads tid m,
          threadMap := alistSet st.threadMap (msgKey m) tid } := by
  unfold pass3step
  cases hk : alistGet st.threadMap (msgKey m) with
  | some v => exact Or.inl rfl
  | none =>
    cases hr : m.reply_to_turn with
    | none => exact Or.inl rfl
    | some p =>
      dsimp only
      by_cases hp : p = ""
      · rw [if_pos hp]; exact Or.inl rfl
      · rw [if_neg hp]
        cases hmm : alistGet mm p with
        | none => exact Or.inl rfl
        | some parent =>
          dsimp only
          cases hpt : alistGet st.threadMap (msgKey parent) with
          | none => exact Or.inl rfl
          | some tid => exact Or.inr ⟨p, parent, tid, rfl, hp, rfl, hmm, hpt, rfl⟩

theorem pass3step_get_ne (mm : List (String × Message)) (st : AssemblyState)
    (m : Message) (k : String) (h : msgKey m ≠ k) :
    alistGet (pass3step mm st m).threadMap k = alistGet st.threadMap k := by
  rcases pass3step_shape mm st m with heq | ⟨p, parent, tid, _, _, _, _, _, heq⟩
  · rw [heq]
  · rw [heq]
    exact alistGet_alistSet_ne _ _ _ _ (Ne.symm h)

theorem pass3_fold_get_eq (mm : List (String × Message)) (l : List Message)
    (st : AssemblyState) (k : String) (h : ∀ x ∈ l, msgKey x ≠ k) :
    alistGet ((l.foldl (pass3step mm) st).threadMap) k = alistGet st.threadMap k := by
  induction l generalizing st with
  | nil => rfl
  | cons x xs ih =>
    rw [List.foldl_cons, ih _ (fun y hy => h y (List.mem_cons_of_mem x hy))]
    exact pass3step_get_ne mm st x k (h x (List.mem_cons_self x xs))

theorem pass3_fold_get_some (mm : List (String × Message)) (l : List Message)
    (st : AssemblyState) (k v : String) (h : alistGet st.threadMap k = some v) :
    alistGet ((l.foldl (pass3step mm) st).threadMap) k = some v := by
  induction l generalizing st with
  | nil => exact h
  | cons x xs ih =>
    rw [List.foldl_cons]
    apply ih
    rcases pass3step_shape mm st x with heq | ⟨p, parent, tid, _, _, hnone, _, _, heq⟩
    · rw [heq]; exact h
    · rw [heq]
      by_cases hk : k = msgKey x
      · subst hk
        rw [h] at hnone
        exact Option.noConfusion hnone
      · rw [alistGet_alistSet_ne _ _ _ _ hk]
        exact h

theorem pass2_fold_id (ta : List (String × List Ann)) (l : List Message)
    (st : AssemblyState) (h : ∀ m ∈ l, findAnnotationForMessage ta m = none) :
    l.foldl (pass2step ta) st = st := by
  induction l generalizing st with
  | nil => rfl
  | cons x xs ih =>
    rw [List.foldl_cons]
    rw [show pass2step ta st x = st by
      simp [pass2step, h x (List.mem_cons_self x xs)]]
    exact ih st (fun y hy => h y (List.mem_cons_of_mem x hy))

theorem pass3_fold_empty (mm : List (String × Message)) (l : List Message)
    (thr : List (String × List Message)) :
    l.foldl (pass3step mm) ⟨thr, []⟩ = ⟨thr, []⟩ := by
  induction l with
  | nil => rfl
  | cons x xs ih =>
    rw [List.foldl_cons]
    rcases pass3step_shape mm ⟨thr, []⟩ x with heq | ⟨p, parent, tid, _, _, _, _, hpt, heq⟩
    · rw [heq, ih]
    · exact Option.noConfusion hpt

theorem pass2_spec (ta : List (String × List Ann)) (msgs : List Message)
    (H : (msgs.map msgKey).Nodup) :
    (∀ x ∈ msgs, alistGet (pass2 ta msgs).threadMap (msgKey x)
        = (findAnnotationForMessage ta x).map Prod.fst)
    ∧ (∀ x ∈ msgs, countIn (pass2 ta msgs).threads x
        = if (findAnnotationForMessage ta x).isSome then 1 else 0)
    ∧ (∀ k, (alistGet (pass2 ta msgs).threadMap k).isSome → k ∈ msgs.map msgKey)
    ∧ (∀ x, x ∉ msgs → countIn (pass2 ta msgs).threads x = 0) := by
  induction msgs using List.reverseRecOn with
  | nil =>
    refine ⟨by simp, by simp, ?_, ?_⟩
    · intro k hk
      simp [pass2, alistGet] at hk
    · intro x _
      simp [pass2, countIn]
  | append_singleton l m ih =>
    have hmapapp : (l ++ [m]).map msgKey = l.map msgKey ++ [msgKey m] := by
      simp
    rw [hmapapp] at H
    rcases List.nodup_append.mp H with ⟨hN, _, hdisj⟩
    have hkm : msgKey m ∉ l.map msgKey := fun hmem =>
      hdisj hmem (List.mem_singleton_self _)
    have hm_notin : m ∉ l := fun hmem => hkm (List.mem_map_of_mem msgKey hmem)
    obtain ⟨i1, i2, i3, i4⟩ := ih hN
    have hsplit : pass2 ta (l ++ [m]) = pass2step ta (pass2 ta l) m := by
      simp [pass2, List.foldl_append]
    have hget_m : alistGet (pass2 ta l).threadMap (msgKey m) = none := by
      cases hg : alistGet (pass2 ta l).threadMap (msgKey m) with
      | none => rfl
      | some v => exact absurd (i3 _ (by rw [hg]; rfl)) hkm
    have hcount_m : countIn (pass2 ta l).threads m = 0 := i4 m hm_notin
    have hkey_ne : ∀ x ∈ l, msgKey x ≠ msgKey m := by
      intro x hx heq
      exact hkm (heq ▸ List.mem_map_of_mem msgKey hx)
    cases hf : findAnnotationForMessage ta m with
    | none =>
      have hstep : pass2step ta (pass2 ta l) m = pass2 ta l := by
        simp [pass2step, hf]
      rw [hsplit, hstep]
      refine ⟨?_, ?_, ?_, ?_⟩
      · intro x hx
        rcases List.mem_append.mp hx with hx | hx
        · exact i1 x hx
        · rw [List.mem_singleton.mp hx, hget_m, hf]
          rfl
      · intro x hx
        rcases List.mem_append.mp hx with hx | hx
        · exact i2 x hx
        · rw [List.mem_singleton.mp hx, hcount_m, hf]
          rfl
      · intro k hk
        rw [hmapapp]
        exact List.mem_append_left _ (i3 k hk)
      · intro x hx
        exact i4 x (fun hmem => hx (List.mem_append_left _ hmem))
    | some q =>
      obtain ⟨tid, a⟩ := q
      have hstep : pass2step ta (pass2 ta l) m =
          { threads := pushThread (pass2 ta l).threads tid m,
            threadMap := alistSet (pass2 ta l).threadMap (msgKey m) tid } := by
        simp [pass2step, hf]
      rw [hsplit, hstep]
      refine ⟨?_, ?_, ?_, ?_⟩
      · intro x hx
        rcases List.mem_append.mp hx with hx | hx
        · rw [alistGet_alistSet_ne _ _ _ _ (hkey_ne x hx)]
          exact i1 x hx
        · rw [List.mem_singleton.mp hx, alistGet_alistSet_self, hf]
          rfl
      · intro x hx
        rcases List.mem_append.mp hx with hx | hx
        · have hmx : m ≠ x := fun hmx => hm_notin (hmx ▸ hx)
          rw [countIn_pushThread, if_neg hmx, Nat.add_zero]
          exact i2 x hx
        · rw [List.mem_singleton.mp hx, countIn_pushThread, if_pos rfl, hcount_m, hf]
          rfl
      · intro k hk
        rw [hmapapp]
        by_cases hkk : k = msgKey m
        · subst hkk
          exact List.mem_append_right _ (List.mem_singleton_self _)
        · rw [alistGet_alistSet_ne _ _ _ _ hkk] at hk
          exact List.mem_append_left _ (i3 k hk)
      · intro x hx
        have hmx : m ≠ x := fun hmx =>
          hx (hmx ▸ List.mem_append_right _ (List.mem_singleton_self _))
        rw [countIn_pushThread, if_neg hmx, Nat.add_zero]
        exact i4 x (fun hmem => hx (List.mem_append_left _ hmem))

theorem pass3_fold_partition (mm : List (String × Message)) (msgs : List Message)
    (H : (msgs.map msgKey).Nodup) (l : List Message) (hl : ∀ x ∈ l, x ∈ msgs)
    (st : AssemblyState)
    (h1 : ∀ x, countIn st.threads x ≤ 1)
    (h2 : ∀ x ∈ msgs,
      (1 ≤ countIn st.threads x ↔ (alistGet st.threadMap (msgKey x)).isSome))
    (h4 : ∀ x, x ∉ msgs → countIn st.threads x = 0) :
    (∀ x, countIn (l.foldl (pass3step mm) st).threads x ≤ 1)
    ∧ (∀ x ∈ msgs, (1 ≤ countIn (l.foldl (pass3step mm) st).threads x
        ↔ (alistGet (l.foldl (pass3step mm) st).threadMap (msgKey x)).isSome))
    ∧ (∀ x, x ∉ msgs → countIn (l.foldl (pass3step mm) st).threads x = 0) := by
  induction l generalizing st with
  | nil => exact ⟨h1, h2, h4⟩
  | cons mcur xs ih =>
    rw [List.foldl_cons]
    have hmcur : mcur ∈ msgs := hl mcur (List.mem_cons_self _ _)
    have hkeyinj : ∀ x ∈ msgs, msgKey x = msgKey mcur → x = mcur := by
      intro x hx heq
      exact List.inj_on_of_nodup_map H hx hmcur heq
    rcases pass3step_shape mm st mcur with heq | ⟨p, parent, tid, _, _, hnone, _, _, heq⟩
    · rw [heq]
      exact ih (fun y hy => hl y (List.mem_cons_of_mem _ hy)) st h1 h2 h4
    · rw [heq]
      have hc0 : countIn st.threads mcur = 0 := by
        have hiff := h2 mcur hmcur
        rw [hnone] at hiff
        simp only [Option.isSome_none, Bool.false_eq_true, iff_false,
          Nat.not_le] at hiff
        omega
      apply ih (fun y hy => hl y (List.mem_cons_of_mem _ hy))
      · intro x
        by_cases hmx : mcur = x
        · subst hmx
          rw [countIn_pushThread, if_pos rfl, hc0]
        · rw [countIn_pushThread, if_neg hmx, Nat.add_zero]
          exact h1 x
      · intro x hx
        by_cases hmx : mcur = x
        · subst hmx
          rw [countIn_pushThread, if_pos rfl, hc0, alistGet_alistSet_self]
          simp
        · have hkx : msgKey x ≠ msgKey mcur := fun heq2 =>
            hmx ((hkeyinj x hx heq2).symm)
          rw [countIn_pushThread, if_neg hmx, Nat.add_zero,
            alistGet_alistSet_ne _ _ _ _ hkx]
          exact h2 x hx
      · intro x hx
        have hmx : mcur ≠ x := fun hmx => hx (hmx ▸ hmcur)
        rw [countIn_pushThread, if_neg hmx, Nat.add_zero]
        exact h4 x hx

theorem occs_sortByTime (x : Message) (l : List Message) :
    occs x (sortByTime l) = occs x l := by
  induction l using List.reverseRecOn with
  | nil => rfl
  | append_singleton l m ih =>
    rw [sortByTime_append_singleton, occs_insertByTime, occs_append, ih]
    simp [occs]
    omega

theorem countIn_sortedThreads (ta : List (String × List Ann)) (msgs : List Message)
    (x : Message) :
    countIn (sortedThreads ta msgs) x = countIn (assemble ta msgs).threads x := by
  unfold sortedThreads
  generalize (assemble ta msgs).threads = thr
  induction thr with
  | nil => rfl
  | cons p rest ih =>
    simp only [List.map_cons, countIn, List.sum_cons] at ih ⊢
    rw [occs_sortByTime]
    omega

theorem assemble_partition (ta : List (String × List Ann)) (msgs : List Message)
    (H : (msgs.map msgKey).Nodup) :
    (∀ x, countIn (assemble ta msgs).threads x ≤ 1)
    ∧ (∀ x ∈ msgs, (1 ≤ countIn (assemble ta msgs).threads x
        ↔ (alistGet (assemble ta msgs).threadMap (msgKey x)).isSome)) := by
  obtain ⟨a1, a2, _, a4⟩ := pass2_spec ta msgs H
  have h1 : ∀ x, countIn (pass2 ta msgs).threads x ≤ 1 := by
    intro x
    by_cases hx : x ∈ msgs
    · rw [a2 x hx]
      split <;> omega
    · rw [a4 x hx]
      omega
  have h2 : ∀ x ∈ msgs, (1 ≤ countIn (pass2 ta msgs).threads x
      ↔ (alistGet (pass2 ta msgs).threadMap (msgKey x)).isSome) := by
    intro x hx
    rw [a1 x hx, a2 x hx]
    cases findAnnotationForMessage ta x <;> simp
  have haseq : assemble ta msgs
      = msgs.foldl (pass3step (messageMapOf msgs)) (pass2 ta msgs) := rfl
  rw [haseq]
  obtain ⟨b1, b2, _⟩ := pass3_fold_partition (messageMapOf msgs) msgs H msgs
    (fun x hx => hx) (pass2 ta msgs) h1 h2 a4
  exact ⟨b1, b2⟩

end ChatView


namespace ImportMapper

theorem ImportRowsAux_counts (contentCol : String) (threadCol turnIdCol : Option String)
    (rows : List Row) : ∀ i : Nat,
    (ImportRowsAux contentCol threadCol turnIdCol i rows).turns.length
      = (rows.filter (rowHasContent contentCol)).length
    ∧ (ImportRowsAux contentCol threadCol turnIdCol i rows).rowErrors.length
      = (rows.filter (fun r => !rowHasContent contentCol r)).length := by
  induction rows with
  | nil => intro i; exact ⟨rfl, rfl⟩
  | cons r rest ih =>
    intro i
    obtain ⟨ih1, ih2⟩ := ih (i + 1)
    cases hv : ChatView.alistGet r.cells contentCol with
    | none =>
      have hrc : rowHasContent contentCol r = false := by
        simp [rowHasContent, hv]
      simp [ImportRowsAux, hv, List.filter_cons, hrc, ih1, ih2]
    | some v =>
      by_cases hve : v = ""
      · have hrc : rowHasContent contentCol r = false := by
          simp [rowHasContent, hv, hve]
        simp [ImportRowsAux, hv, hve, List.filter_cons, hrc, ih1, ih2]
      · have hrc : rowHasContent contentCol r = true := by
          simp [rowHasContent, hv, hve]
        simp [ImportRowsAux, hv, hve, List.filter_cons, hrc, ih1, ih2]

end ImportMapper

section Claims

open ChatView

/-- C1 (corrected): the assembly is a pure function of the presented lists, so
re-resolving the same snapshot in the same order is trivially identical, and a turn
whose own annotation is found resolves to that annotation's thread group under
every presentation order (given pairwise-distinct message keys); but, as the
counterexample shows, turns that only inherit through `reply_to_turn` can resolve
differently under different list orders, so full order-independence fails. -/
theorem claim1_theorem (ta : List (String × List Ann)) (msgs : List Message)
    (m : Message) (tid : String) (a : Ann) (H : (msgs.map msgKey).Nodup)
    (hm : m ∈ msgs) (hf : findAnnotationForMessage ta m = some (tid, a)) :
    resolvedThread ta msgs m = some tid := by
  obtain ⟨a1, _, _, _⟩ := pass2_spec ta msgs H
  have h2 := a1 m hm
  rw [hf] at h2
  simp only [Option.map_some'] at h2
  show alistGet (msgs.foldl (pass3step (messageMapOf msgs)) (pass2 ta msgs)).threadMap
    (msgKey m) = some tid
  exact pass3_fold_get_some _ msgs (pass2 ta msgs) _ tid h2

/-- C1 witness: the explicitly annotated `t1` resolves to `A` even when the list is
presented out of reply order. -/
theorem claim1_witness :
    resolvedThread Ex.exTaA [Ex.exT1, Ex.exT3, Ex.exT2] Ex.exT1 = some "A" :=
  claim1_theorem Ex.exTaA [Ex.exT1, Ex.exT3, Ex.exT2] Ex.exT1 "A" Ex.exAnnT1
    (by decide) (by decide) (by decide)

/-- C1 counterexample: the same snapshot `{t1, t2, t3}` with annotation `t1 → A`
resolves `t3` to `A` in order `[t1, t2, t3]` but to nothing in order
`[t1, t3, t2]`, so resolution is not order-independent. -/
theorem claim1_counterexample :
    resolvedThread Ex.exTaA [Ex.exT1, Ex.exT2, Ex.exT3] Ex.exT3 = some "A"
    ∧ resolvedThread Ex.exTaA [Ex.exT1, Ex.exT3, Ex.exT2] Ex.exT3 = none := by
  decide

/-- C2 (confirmed): for the working set `[t1, t2, t3]` (t2 replying to t1, t3 to
t2) with the single annotation `t1 → A`, all three turns resolve to `A`, `t1` as
the explicitly annotated turn and `t2`, `t3` by inheritance down the reply chain. -/
theorem claim2_theorem :
    resolvedThread Ex.exTaA [Ex.exT1, Ex.exT2, Ex.exT3] Ex.exT1 = some "A"
    ∧ resolvedThread Ex.exTaA [Ex.exT1, Ex.exT2, Ex.exT3] Ex.exT2 = some "A"
    ∧ resolvedThread Ex.exTaA [Ex.exT1, Ex.exT2, Ex.exT3] Ex.exT3 = some "A"
    ∧ originOf Ex.exTaA [Ex.exT1, Ex.exT2, Ex.exT3] Ex.exT1 = Origin.explicit
    ∧ originOf Ex.exTaA [Ex.exT1, Ex.exT2, Ex.exT3] Ex.exT2 = Origin.inherited
    ∧ originOf Ex.exTaA [Ex.exT1, Ex.exT2, Ex.exT3] Ex.exT3 = Origin.inherited := by
  decide

/-- C3 (corrected): the selection of the winning annotation never consults
`created_at`, `source` or `confidence` — rewriting those three fields arbitrarily
in every record leaves the selected thread id and record identity unchanged; the
winner is determined purely by `turn_id` matching in the listed group order. -/
theorem claim3_theorem (g : Ann → Nat) (s : Ann → Source) (c : Ann → ℚ)
    (ta : List (String × List Ann)) (m : Message) :
    ((findAnnotationForMessage (mapAnns (reMeta g s c) ta) m).map
        (fun q => (q.1, q.2.turn_id)))
      = ((findAnnotationForMessage ta m).map (fun q => (q.1, q.2.turn_id))) := by
  rw [findAnn_mapAnns_reMeta]
  cases findAnnotationForMessage ta m <;> rfl

/-- C3 counterexample: for duplicate records on `t2` — `(created_at 1, import)`
under thread `X` and `(created_at 2, manual)` under thread `Y`, with `X` listed
first — the code picks the `X` record, not `Y` as the claimed tie-break demands. -/
theorem claim3_counterexample :
    findAnnotationForMessage Ex.c3Ta Ex.exT2 = some ("X", Ex.c3AnnX)
    ∧ "X" ≠ "Y" := by
  decide

/-- C4 (corrected): resolution is a total function built from three bounded passes,
so it terminates on every input; on a working set none of whose members has a
matching annotation — in particular a pure reply cycle `A→B→A` — every turn is
left unresolved and listed as unthreaded; but no diagnostic of any kind is
emitted, because the assembly has no diagnostic mechanism. -/
theorem claim4_theorem (ta : List (String × List Ann)) (msgs : List Message)
    (h : ∀ m ∈ msgs, findAnnotationForMessage ta m = none) :
    (∀ m ∈ msgs, resolvedThread ta msgs m = none ∧ m ∈ unthreadedMessages ta msgs)
    ∧ unthreadedMessages ta msgs = msgs
    ∧ emittedDiagnostics ta msgs = [] := by
  have hassem : assemble ta msgs = ⟨[], []⟩ := by
    show msgs.foldl (pass3step (messageMapOf msgs))
      (msgs.foldl (pass2step ta) ⟨[], []⟩) = _
    rw [pass2_fold_id ta msgs _ h]
    exact pass3_fold_empty _ _ _
  have hres : ∀ m : Message, resolvedThread ta msgs m = none := by
    intro m
    unfold resolvedThread
    rw [hassem]
    rfl
  have hunthr : unthreadedMessages ta msgs = msgs := by
    unfold unthreadedMessages
    rw [hassem]
    apply List.filter_eq_self.mpr
    intro a _
    rfl
  exact ⟨fun m hm => ⟨hres m, by rw [hunthr]; exact hm⟩, hunthr, rfl⟩

/-- C4 witness: the cycle member `B` of `A→B→A` is unresolved and unthreaded. -/
theorem claim4_witness :
    resolvedThread [] [Ex.cycA, Ex.cycB] Ex.cycB = none
    ∧ Ex.cycB ∈ unthreadedMessages [] [Ex.cycA, Ex.cycB] :=
  (claim4_theorem [] [Ex.cycA, Ex.cycB] (by decide)).1 Ex.cycB (by decide)

/-- C4 counterexample: on the reply cycle `A→B→A` both turns do resolve to
nothing, but no `CycleDetected` diagnostic is emitted — the diagnostic list is
empty, refuting the claim as stated. -/
theorem claim4_counterexample :
    resolvedThread [] [Ex.cycA, Ex.cycB] Ex.cycA = none
    ∧ (¬ ∃ ids, Diagnostic.CycleDetected ids ∈ emittedDiagnostics [] [Ex.cycA, Ex.cycB]) := by
  refine ⟨by decide, ?_⟩
  rintro ⟨ids, hmem⟩
  simp [emittedDiagnostics] at hmem

/-- C5 (corrected): with `A` annotated to `X`, a `B` replying to `A` with no
annotation of its own inherits `X`; with `B` additionally annotated to `Y`, `B`
resolves to `Y`, and its descendants `C`, `D` inherit `Y` (not `X`) when the list
presents each turn after its parent; presented before its parent, a descendant can
instead remain unresolved (see the counterexample). -/
theorem claim5_theorem :
    (resolvedThread Ex.c5TaX [Ex.c5A, Ex.c5B] Ex.c5B = some "X"
      ∧ originOf Ex.c5TaX [Ex.c5A, Ex.c5B] Ex.c5B = Origin.inherited)
    ∧ (resolvedThread Ex.c5TaXY [Ex.c5A, Ex.c5B, Ex.c5C, Ex.c5D] Ex.c5B = some "Y"
      ∧ originOf Ex.c5TaXY [Ex.c5A, Ex.c5B, Ex.c5C, Ex.c5D] Ex.c5B = Origin.explicit
      ∧ resolvedThread Ex.c5TaXY [Ex.c5A, Ex.c5B, Ex.c5C, Ex.c5D] Ex.c5C = some "Y"
      ∧ resolvedThread Ex.c5TaXY [Ex.c5A, Ex.c5B, Ex.c5C, Ex.c5D] Ex.c5D = some "Y"
      ∧ originOf Ex.c5TaXY [Ex.c5A, Ex.c5B, Ex.c5C, Ex.c5D] Ex.c5C = Origin.inherited
      ∧ originOf Ex.c5TaXY [Ex.c5A, Ex.c5B, Ex.c5C, Ex.c5D] Ex.c5D = Origin.inherited) := by
  decide

/-- C5 counterexample: in presentation order `[A, B, D, C]` the deep descendant
`D` of the `Y`-annotated `B` is processed before its parent `C` and remains
unresolved, refuting "every descendant of B inherits Y". -/
theorem claim5_counterexample :
    resolvedThread Ex.c5TaXY [Ex.c5A, Ex.c5B, Ex.c5D, Ex.c5C] Ex.c5D = none
    ∧ resolvedThread Ex.c5TaXY [Ex.c5A, Ex.c5B, Ex.c5D, Ex.c5C] Ex.c5C = some "Y" := by
  decide

/-- C6 (corrected): a turn with no matching annotation whose `reply_to_turn` key is
absent from the loaded `messageMap` resolves to nothing, with origin unresolved
(general part, under pairwise-distinct keys); and once the missing parent is
supplied carrying its own annotation, recomputation over the extended list pulls
the waiting turn to the parent's thread.  A late parent that merely inherits from
a further ancestor does not pull the waiting turn (see the counterexample). -/
theorem claim6_theorem :
    (∀ (ta : List (String × List Ann)) (msgs : List Message) (m : Message)
      (p : String), (msgs.map msgKey).Nodup → m ∈ msgs →
      findAnnotationForMessage ta m = none → m.reply_to_turn = some p →
      alistGet (messageMapOf msgs) p = none →
      resolvedThread ta msgs m = none ∧ originOf ta msgs m = Origin.unresolved)
    ∧ (resolvedThread Ex.c6Ta [Ex.c6Child] Ex.c6Child = none
      ∧ resolvedThread Ex.c6Ta [Ex.c6Child, Ex.c6Parent] Ex.c6Child = some "X"
      ∧ originOf Ex.c6Ta [Ex.c6Child, Ex.c6Parent] Ex.c6Child = Origin.inherited) := by
  constructor
  · intro ta msgs m p H hm hfm hr hp
    obtain ⟨l1, l2, rfl⟩ := List.append_of_mem hm
    have hmapsplit : (l1 ++ m :: l2).map msgKey
        = l1.map msgKey ++ msgKey m :: l2.map msgKey := by
      simp
    rw [hmapsplit] at H
    rcases List.nodup_append.mp H with ⟨_, hN2, hdisj⟩
    have hne1 : ∀ x ∈ l1, msgKey x ≠ msgKey m := by
      intro x hx heq
      exact hdisj (List.mem_map_of_mem msgKey hx)
        (heq ▸ List.mem_cons_self _ _)
    have hne2 : ∀ x ∈ l2, msgKey x ≠ msgKey m := by
      intro x hx heq
      rcases List.nodup_cons.mp hN2 with ⟨hnotmem, _⟩
      exact hnotmem (heq ▸ List.mem_map_of_mem msgKey hx)
    obtain ⟨a1, _, _, _⟩ := pass2_spec ta (l1 ++ m :: l2) (by rw [hmapsplit]; exact H)
    have hget2 : alistGet (pass2 ta (l1 ++ m :: l2)).threadMap (msgKey m) = none := by
      rw [a1 m hm, hfm]
      rfl
    have hres : resolvedThread ta (l1 ++ m :: l2) m = none := by
      show alistGet ((l1 ++ m :: l2).foldl
        (pass3step (messageMapOf (l1 ++ m :: l2)))
        (pass2 ta (l1 ++ m :: l2))).threadMap (msgKey m) = none
      rw [List.foldl_append, List.foldl_cons]
      set mm := messageMapOf (l1 ++ m :: l2) with hmm
      set st1 := l1.foldl (pass3step mm) (pass2 ta (l1 ++ m :: l2)) with hst1
      have hget1 : alistGet st1.threadMap (msgKey m) = none := by
        rw [hst1, pass3_fold_get_eq mm l1 _ _ hne1]
        exact hget2
      have hstep : pass3step mm st1 m = st1 := by
        unfold pass3step
        rw [hget1, hr]
        dsimp only
        by_cases hpe : p = ""
        · rw [if_pos hpe]
        · rw [if_neg hpe, hp]
      rw [hstep]
      rw [pass3_fold_get_eq mm l2 _ _ hne2]
      exact hget1
    refine ⟨hres, ?_⟩
    unfold originOf
    rw [hfm, hres]
    rfl
  · decide

/-- C6 witness: a lone turn replying to the unknown key `ghost` is unresolved. -/
theorem claim6_witness :
    resolvedThread [] [Ex.c6Dangling] Ex.c6Dangling = none
    ∧ originOf [] [Ex.c6Dangling] Ex.c6Dangling = Origin.unresolved :=
  claim6_theorem.1 [] [Ex.c6Dangling] Ex.c6Dangling "ghost" (by decide) (by decide)
    (by decide) (by decide) (by decide)

/-- C6 counterexample: `c2` waits for the late parent `p2`; when `p2` arrives on a
later page (appended after `c2`) and resolves to `X` through its own ancestor
`g1`, the recomputation still leaves `c2` unresolved, refuting "recomputation
pulls the waiting turn to the parent's (or further ancestor's) thread". -/
theorem claim6_counterexample :
    resolvedThread Ex.c6Ta2 [Ex.c6G, Ex.c6C2] Ex.c6C2 = none
    ∧ resolvedThread Ex.c6Ta2 [Ex.c6G, Ex.c6C2, Ex.c6P2] Ex.c6P2 = some "X"
    ∧ resolvedThread Ex.c6Ta2 [Ex.c6G, Ex.c6C2, Ex.c6P2] Ex.c6C2 = none := by
  decide

/-- C7 (confirmed, modelled from the spec): `ImportRows` with a mapping lacking the
required `content` target fails the whole import with a `ConfigurationError` and
produces nothing; with `content` mapped, every row either imports or is skipped
with a row-level error, the skipped rows being exactly those without a usable
content value — the others still import. -/
theorem claim7_theorem :
    (∀ (rows : List ImportMapper.Row) (mapping : List (String × String)),
      alistGet mapping "content" = none →
      ImportMapper.ImportRows rows mapping
        = Except.error (ImportMapper.ConfigurationError.missingRequired "content"))
    ∧ (∀ (rows : List ImportMapper.Row) (mapping : List (String × String))
        (col : String), alistGet mapping "content" = some col →
      ∃ out, ImportMapper.ImportRows rows mapping = Except.ok out
        ∧ out.turns.length = (rows.filter (ImportMapper.rowHasContent col)).length
        ∧ out.rowErrors.length
            = (rows.filter (fun r => !ImportMapper.rowHasContent col r)).length) := by
  constructor
  · intro rows mapping h
    unfold ImportMapper.ImportRows
    rw [h]
  · intro rows mapping col h
    refine ⟨ImportMapper.ImportRowsAux col (alistGet mapping "thread")
      (alistGet mapping "turn_id") 0 rows, ?_, ?_, ?_⟩
    · unfold ImportMapper.ImportRows
      rw [h]
    · exact (ImportMapper.ImportRowsAux_counts col _ _ rows 0).1
    · exact (ImportMapper.ImportRowsAux_counts col _ _ rows 0).2

/-- C7 witness: the batch `[good, bad, good]` fails wholesale without a `content`
mapping, and with one the bad row alone is skipped while both good rows import. -/
theorem claim7_witness :
    (ImportMapper.ImportRows Ex.c7Rows Ex.c7BadMapping
      = Except.error (ImportMapper.ConfigurationError.missingRequired "content"))
    ∧ (∃ out, ImportMapper.ImportRows Ex.c7Rows Ex.c7GoodMapping = Except.ok out
      ∧ out.turns.length = (Ex.c7Rows.filter (ImportMapper.rowHasContent "msg")).length
      ∧ out.rowErrors.length
          = (Ex.c7Rows.filter (fun r => !ImportMapper.rowHasContent "msg" r)).length) :=
  ⟨claim7_theorem.1 Ex.c7Rows Ex.c7BadMapping (by decide),
   claim7_theorem.2 Ex.c7Rows Ex.c7GoodMapping "msg" (by decide)⟩

/-- C8 (corrected): the projector groups turns by thread id, each displayed group
is sorted by timestamp ascending and is a permutation of the assembled group, and
it is a pure transformation; but timestamp ties are broken by the order messages
were pushed into the group (explicitly annotated messages before inherited ones),
not by global ingestion order (see the counterexample). -/
theorem claim8_theorem (ta : List (String × List Ann)) (msgs : List Message)
    (tid : String) (g : List Message)
    (h : alistGet (sortedThreads ta msgs) tid = some g) :
    g.Pairwise (fun a b => a.time ≤ b.time)
    ∧ ∃ g0, alistGet (assemble ta msgs).threads tid = some g0 ∧ g.Perm g0 := by
  unfold sortedThreads at h
  rw [alistGet_map_snd] at h
  cases hg : alistGet (assemble ta msgs).threads tid with
  | none =>
    rw [hg] at h
    exact Option.noConfusion h
  | some g0 =>
    rw [hg] at h
    simp only [Option.map_some'] at h
    injection h with h2
    subst h2
    exact ⟨sortByTime_pairwise g0, g0, rfl, sortByTime_perm g0⟩

/-- C8 witness: the displayed group `A` of the tie scenario is time-sorted and a
permutation of its assembled group. -/
theorem claim8_witness :
    ([Ex.c8T1, Ex.c8T3, Ex.c8T2].Pairwise (fun a b => a.time ≤ b.time))
    ∧ ∃ g0, alistGet (assemble Ex.c8Ta [Ex.c8T1, Ex.c8T2, Ex.c8T3]).threads "A"
        = some g0 ∧ [Ex.c8T1, Ex.c8T3, Ex.c8T2].Perm g0 :=
  claim8_theorem Ex.c8Ta [Ex.c8T1, Ex.c8T2, Ex.c8T3] "A"
    [Ex.c8T1, Ex.c8T3, Ex.c8T2] (by decide)

/-- C8 counterexample: with ingestion order `[s1, s2, s3]` all at timestamp 5, the
displayed group is `[s1, s3, s2]` — annotated turns first, inherited `s2` last —
not the ingestion order `[s1, s2, s3]` the claimed tie-break demands. -/
theorem claim8_counterexample :
    alistGet (sortedThreads Ex.c8Ta [Ex.c8T1, Ex.c8T2, Ex.c8T3]) "A"
      = some [Ex.c8T1, Ex.c8T3, Ex.c8T2]
    ∧ [Ex.c8T1, Ex.c8T3, Ex.c8T2] ≠ [Ex.c8T1, Ex.c8T2, Ex.c8T3] := by
  decide

/-- C9 (corrected): when the loaded messages have pairwise-distinct keys
(`turn_id`, falling back to `id`), the displayed thread groups and the unthreaded
set partition them — every message occurs in at most one group, at most once, and
the unthreaded set consists exactly of the messages occurring in no group.  With
duplicate keys a message can be swallowed entirely (see the counterexample). -/
theorem claim9_theorem (ta : List (String × List Ann)) (msgs : List Message)
    (H : (msgs.map msgKey).Nodup) :
    ∀ x ∈ msgs, countIn (sortedThreads ta msgs) x ≤ 1
      ∧ (x ∈ unthreadedMessages ta msgs ↔ countIn (sortedThreads ta msgs) x = 0) := by
  obtain ⟨b1, b2⟩ := assemble_partition ta msgs H
  intro x hx
  rw [countIn_sortedThreads]
  refine ⟨b1 x, ?_⟩
  have hiff := b2 x hx
  unfold unthreadedMessages
  rw [List.mem_filter]
  constructor
  · rintro ⟨-, hpred⟩
    have hnone : alistGet (assemble ta msgs).threadMap (msgKey x) = none :=
      Option.isNone_iff_eq_none.mp hpred
    rw [hnone] at hiff
    simp only [Option.isSome_none, Bool.false_eq_true, iff_false, Nat.not_le] at hiff
    omega
  · intro h0
    refine ⟨hx, ?_⟩
    cases hg : alistGet (assemble ta msgs).threadMap (msgKey x) with
    | none => rfl
    | some v =>
      rw [hg] at hiff
      simp only [Option.isSome_some, iff_true] at hiff
      omega

/-- C9 witness: in the distinct-key working set `[t1, t2, t3]`, `t2` occurs at most
once across groups and is unthreaded exactly when it occurs in no group. -/
theorem claim9_witness :
    countIn (sortedThreads Ex.exTaA [Ex.exT1, Ex.exT2, Ex.exT3]) Ex.exT2 ≤ 1
    ∧ (Ex.exT2 ∈ unthreadedMessages Ex.exTaA [Ex.exT1, Ex.exT2, Ex.exT3]
      ↔ countIn (sortedThreads Ex.exTaA [Ex.exT1, Ex.exT2, Ex.exT3]) Ex.exT2 = 0) :=
  claim9_theorem Ex.exTaA [Ex.exT1, Ex.exT2, Ex.exT3] (by decide) Ex.exT2 (by decide)

/-- C9 counterexample: two messages share key `t`; the first is threaded via its
parent, after which the second is skipped by the map guard — it lands in no thread
group yet the final map hides it from the unthreaded list, so the groups and the
unthreaded set do not partition the loaded messages. -/
theorem claim9_counterexample :
    countIn (sortedThreads Ex.c9Ta Ex.c9Msgs) Ex.c9M2 = 0
    ∧ Ex.c9M2 ∉ unthreadedMessages Ex.c9Ta Ex.c9Msgs := by
  decide

/-- C10 (code bug): for the same form input of 50 (percent), the admin-ui-copy
ChatView sends `0.5` to the create-annotation API while the unnamed variant
divides by 100 twice and sends `0.005`; the two flows are not equivalent. -/
theorem claim10_theorem :
    ConfidenceFlows.adminCopySentConfidence 50 = 1 / 2
    ∧ ConfidenceFlows.variantSentConfidence 50 = 1 / 200
    ∧ ConfidenceFlows.adminCopySentConfidence 50
        ≠ ConfidenceFlows.variantSentConfidence 50 := by
  refine ⟨?_, ?_, ?_⟩ <;>
    norm_num [ConfidenceFlows.adminCopySentConfidence,
      ConfidenceFlows.variantSentConfidence]

end Claims
